import Mathlib

/-!
# Verification of the incremental build layer of the angular-cli sources

This file gives a shallow embedding, in Lean 4, of the parts of the
repository relevant to the frozen claims:

* `getOutputHashFormat` from the webpack utils module (`part_001`);
* `WebpackResourceLoader` (`part_004`): resource child compilation,
  evaluated-source caching keyed on the compilation hash, the forward and
  reverse resource-dependency maps, asset propagation into the parent
  compilation, and the rejection of `.js`/`.ts` resource paths;
* `AngularWebpackPlugin` (`part_005`): unused-file warning deduplication,
  watch-mode retention of incremental state, and the pull-based file
  emitter produced by `createFileEmitter`;
* `SourceFileCache.invalidate`, whose defining module is referenced from
  the plugin but is not among the given sources; it is modelled from the
  specification text.

JavaScript `Map`s are embedded as association lists with `Map.get` /
`Map.set` semantics, JavaScript `Set`s as duplicate-free lists compared by
membership, and external collaborators (the webpack child compilation, the
`vm` evaluator, path normalization) as explicit inputs.
-/

namespace AngularCli

set_option maxHeartbeats 1000000

/-! ## Association-list model of JavaScript `Map` -/

/-- `Map.get`: the value stored at key `k`, if any (first binding wins;
the maps built below never hold duplicate keys). -/
def lookupA {α : Type} (k : String) : List (String × α) → Option α
  | [] => none
  | p :: rest => if p.1 = k then some p.2 else lookupA k rest

/-- `Map.set`: replace the binding of `k` in place, or append a fresh one. -/
def setA {α : Type} (k : String) (v : α) : List (String × α) → List (String × α)
  | [] => [(k, v)]
  | p :: rest => if p.1 = k then (k, v) :: rest else p :: setA k v rest

/-! ## `getOutputHashFormat` (webpack utils, `part_001`) -/

/-- The `HashFormat` interface. -/
structure HashFormat where
  chunk : String
  extract : String
  file : String
  script : String
deriving DecidableEq, Repr

/-- The property keys a plain JavaScript object literal inherits from
`Object.prototype`: for these, `hashFormats[option]` does not yield
`undefined` but the inherited (truthy: a function, or `Object.prototype`
itself for `__proto__`) value, so `|| hashFormats['none']` never fires. -/
def objectPrototypeKeys : List String :=
  ["constructor", "hasOwnProperty", "isPrototypeOf", "propertyIsEnumerable",
    "toLocaleString", "toString", "valueOf", "__proto__", "__defineGetter__",
    "__defineSetter__", "__lookupGetter__", "__lookupSetter__"]

/-- What `hashFormats[option] || hashFormats['none']` actually produces:
either one of the `HashFormat` own-property values, or — despite the
declared TypeScript return type — a truthy non-format value inherited
from `Object.prototype` (recorded here by its key). -/
inductive JsLookupResult
  | format (fmt : HashFormat)
  | inherited (key : String)
deriving DecidableEq, Repr

/-- `getOutputHashFormat(option, length = 20)`: the lookup table of the four
known hashing options.  The fallback `hashFormats[option] ||
hashFormats['none']` runs on a plain object literal, so an option string
naming an `Object.prototype` property returns that inherited truthy value
instead of the `none` format; every other unknown option falls back to
the `none` format. -/
def getOutputHashFormat (option : String) (length : Nat := 20) : JsLookupResult :=
  if option = "none" then
    .format { chunk := "", extract := "", file := "", script := "" }
  else if option = "media" then
    .format
      { chunk := ""
        extract := ""
        file := ".[hash:" ++ toString length ++ "]"
        script := "" }
  else if option = "bundles" then
    .format
      { chunk := ".[chunkhash:" ++ toString length ++ "]"
        extract := ".[contenthash:" ++ toString length ++ "]"
        file := ""
        script := ".[hash:" ++ toString length ++ "]" }
  else if option = "all" then
    .format
      { chunk := ".[chunkhash:" ++ toString length ++ "]"
        extract := ".[contenthash:" ++ toString length ++ "]"
        file := ".[hash:" ++ toString length ++ "]"
        script := ".[hash:" ++ toString length ++ "]" }
  else if option ∈ objectPrototypeKeys then
    .inherited option
  else
    .format { chunk := "", extract := "", file := "", script := "" }

/-! ## `WebpackResourceLoader` (`part_004`)

The loader's mutable fields become a `LoaderState`; the webpack child
compilation produced for a resource (its assets, its file-dependency set,
its `fullHash`) and the `vm`-based `_evaluate` step are external
collaborators, bundled into a `ChildEnv` input.  Asset contents are
modelled as the strings returned by `source()`. -/

/-- Environment supplied by the webpack child compilation of one resource. -/
structure ChildEnv where
  rawAssets : List (String × String)
  fileDeps : List String
  fullHash : String
  evaluator : String → Except String String

/-- The `WebpackResourceLoader` fields, together with the parent
compilation's asset map which `_compile` mutates. -/
structure LoaderState where
  fileDependencies : List (String × List String)
  reverseDependencies : List (String × List String)
  cachedSources : List (String × String)
  cachedEvaluatedSources : List (String × String)
  changedFiles : Option (List String)
  parentAssets : List (String × String)
deriving Inhabited

/-- String suffix test over the underlying character list (so that it
evaluates structurally). -/
def endsWithStr (s suf : String) : Bool :=
  suf.data.isSuffixOf s.data

/-- The sanity check `filePath.match(/\.[jt]s$/)`: the anchored pattern
holds exactly when the path ends in `.js` or `.ts`. -/
def isJsTs (filePath : String) : Bool :=
  endsWithStr filePath ".js" || endsWithStr filePath ".ts"

/-- The rejection message for a script file used as a resource. -/
def scriptResourceError (filePath : String) : String :=
  "Cannot use a JavaScript or TypeScript file (" ++ filePath ++
    ") in a component\x27s styleUrls or templateUrl."

/-- `getResourceDependencies(filePath)`: the forward map entry, or `[]`. -/
def getResourceDependencies (st : LoaderState) (filePath : String) : List String :=
  (lookupA filePath st.fileDependencies).getD []

/-- `getAffectedResources(file)`: the reverse map entry, or `[]`. -/
def getAffectedResources (st : LoaderState) (file : String) : List String :=
  (lookupA file st.reverseDependencies).getD []

/-- The `additionalAssets` hook tapped on the child compilation: if an
evaluated source is cached under the compilation's `fullHash` it becomes
the compilation asset for `filePath` with no evaluation; otherwise the
asset for `filePath` (when present) is evaluated, cached under the hash
and replaces the asset.  Returns the child assets after the hook, the
updated evaluated-source cache, and whether the evaluator ran. -/
def additionalAssetsHook (cachedEvaluatedSources : List (String × String))
    (filePath : String) (env : ChildEnv) :
    Except String (List (String × String) × List (String × String) × Bool) :=
  match lookupA env.fullHash cachedEvaluatedSources with
  | some cached => .ok (setA filePath cached env.rawAssets, cachedEvaluatedSources, false)
  | none =>
    match lookupA filePath env.rawAssets with
    | some src =>
      match env.evaluator src with
      | .ok output =>
        .ok (setA filePath output env.rawAssets,
          setA env.fullHash output cachedEvaluatedSources, true)
      | .error e => .error e
    | none => .ok (env.rawAssets, cachedEvaluatedSources, false)

/-- Propagation of the child compilation's assets into the parent: every
asset other than the loaded file and its sourcemap is added when the
parent does not already have an asset of that name. -/
def propagateAssets (parent : List (String × String))
    (childAssets : List (String × String)) (filePath : String) :
    List (String × String) :=
  childAssets.foldl
    (fun p a =>
      if a.1 ≠ filePath ∧ a.1 ≠ filePath ++ ".map" ∧ lookupA a.1 p = none then
        p ++ [a]
      else p)
    parent

/-- One step of `_compile`'s reverse-dependency bookkeeping: `filePath`
joins the entry of the normalized dependency path `f` (`entry.add`), a
fresh single-element entry being created when none exists. -/
def addReverseDep (nz : String → String) (filePath : String)
    (m : List (String × List String)) (f : String) :
    List (String × List String) :=
  match lookupA (nz f) m with
  | some entry =>
    setA (nz f) (if filePath ∈ entry then entry else entry ++ [filePath]) m
  | none => m ++ [(nz f, [filePath])]

/-- The reverse-dependency update of `_compile`: for every file of the
child compilation's dependency set, `filePath` is added to the entry of
the normalized dependency path. -/
def updateReverseDeps (nz : String → String) (filePath : String)
    (deps : List String) (m : List (String × List String)) :
    List (String × List String) :=
  deps.foldl (addReverseDep nz filePath) m

/-- A successful `_compile` outcome: the `CompilationOutput` together with
the loader state after the call and whether `_evaluate` was invoked. -/
structure CompileResult where
  outputName : String
  source : String
  state : LoaderState
  evaluatorCalled : Bool
deriving Inhabited

/-- The loader state after `_compile` has propagated assets and recorded
the forward and reverse dependency entries of `filePath`. -/
def afterDeps (nz : String → String) (st : LoaderState) (filePath : String)
    (env : ChildEnv) (childAssets ces : List (String × String)) : LoaderState :=
  { st with
    parentAssets := propagateAssets st.parentAssets childAssets filePath
    fileDependencies := setA filePath env.fileDeps.dedup st.fileDependencies
    reverseDependencies := updateReverseDeps nz filePath env.fileDeps st.reverseDependencies
    cachedEvaluatedSources := ces }

/-- `WebpackResourceLoader._compile(filePath)`, parameterized by the path
normalization `nz` and the child-compilation environment `env`.  Mirrors
the source: script-file sanity check, the `additionalAssets` hook, asset
propagation, forward/reverse dependency bookkeeping, and the
`_cachedSources` lookup keyed on the child compilation's `fullHash`
(where, as in JavaScript, a cached empty string is falsy and falls
through to re-reading the asset). -/
def compileModel (nz : String → String) (st : LoaderState) (filePath : String)
    (env : ChildEnv) : Except String CompileResult :=
  if isJsTs filePath then
    .error (scriptResourceError filePath)
  else
    match additionalAssetsHook st.cachedEvaluatedSources filePath env with
    | .error e => .error e
    | .ok (childAssets, ces, called) =>
      match lookupA env.fullHash st.cachedSources with
      | some s =>
        if s = "" then
          match lookupA filePath childAssets with
          | some src =>
            .ok ⟨filePath, src,
              { afterDeps nz st filePath env childAssets ces with
                cachedSources := setA env.fullHash src st.cachedSources }, called⟩
          | none => .error ("resource asset not found for " ++ filePath)
        else
          .ok ⟨filePath, s, afterDeps nz st filePath env childAssets ces, called⟩
      | none =>
        match lookupA filePath childAssets with
        | some src =>
          .ok ⟨filePath, src,
            { afterDeps nz st filePath env childAssets ces with
              cachedSources := setA env.fullHash src st.cachedSources }, called⟩
        | none => .error ("resource asset not found for " ++ filePath)

/-! ## `SourceFileCache` (modelled from the spec)

The module defining `SourceFileCache` is referenced from the plugin
(`import { SourceFileCache } from './cache'`) but is not among the given
sources; the definitions of this section are therefore modelled from the
specification text (sections 3, 4.5 and P6) rather than translated. -/

/-- All successors of `f` in the reverse resource-dependency map: the
union of the entries recorded under key `f`. -/
def revSuccs (rev : List (String × List String)) (f : String) : List String :=
  ((rev.filter (fun p => decide (p.1 = f))).map (fun p => p.2)).flatten

/-- Removal of every entry recorded under key `f`. -/
def eraseKeyAll (rev : List (String × List String)) (f : String) :
    List (String × List String) :=
  rev.filter (fun p => decide (p.1 ≠ f))

/-- Size measure for the reachability worklist: one unit per entry plus
one per recorded successor. -/
def revSize (rev : List (String × List String)) : Nat :=
  (rev.map (fun p => p.2.length + 1)).sum

theorem revSize_erase_succs (rev : List (String × List String)) (f : String) :
    revSize (eraseKeyAll rev f) + (revSuccs rev f).length ≤ revSize rev := by
  induction rev with
  | nil => simp [revSize, eraseKeyAll, revSuccs]
  | cons p rest ih =>
    by_cases hp : p.1 = f
    · simp only [revSize, eraseKeyAll, revSuccs] at ih ⊢
      simp [List.filter_cons, hp] at ih ⊢
      omega
    · simp only [revSize, eraseKeyAll, revSuccs] at ih ⊢
      simp [List.filter_cons, hp] at ih ⊢
      omega

/-- Worklist computation of every file reachable from the starting list
`wl` through the reverse resource-dependency map (the files of `wl`
themselves included).  Processed keys are removed from the map, which
bounds the recursion. -/
def closureGo (rev : List (String × List String)) (wl acc : List String) :
    List String :=
  match wl with
  | [] => acc
  | f :: rest =>
    if f ∈ acc then closureGo rev rest acc
    else closureGo (eraseKeyAll rev f) (rest ++ revSuccs rev f) (f :: acc)
termination_by revSize rev + wl.length
decreasing_by
  · simp only [List.length_cons]
    omega
  · have h := revSize_erase_succs rev f
    simp only [List.length_append, List.length_cons]
    omega

/-- Modelled from the spec: `SourceFileCache.invalidate`, whose defining
module (`ivy/cache.ts`) is missing from the given sources.  Per the spec,
a cache entry is evicted when the underlying file's reported timestamp
exceeds the last build timestamp, eviction extends to every entry
transitively reachable through the reverse resource-dependency map, paths
are normalized, and the stale files are returned as the changed-files
set. -/
def invalidate {α : Type} (cache : List (String × α))
    (fileTimestamps : List (String × Nat)) (buildTimestamp : Nat)
    (rev : List (String × List String)) (nz : String → String) :
    List (String × α) × List String :=
  let stale :=
    (fileTimestamps.filter (fun p => decide (buildTimestamp < p.2))).map
      (fun p => nz p.1)
  let evicted := closureGo rev stale []
  (cache.filter (fun e => !(decide (e.1 ∈ evicted))), stale)

/-- One edge of the reverse resource-dependency map: some entry keyed `f`
records `r` among its resources. -/
def edgeRel (rev : List (String × List String)) (f r : String) : Prop :=
  ∃ p, p ∈ rev ∧ p.1 = f ∧ r ∈ p.2

/-- `WebpackResourceLoader.get(filePath)`: `_compile` followed by
projecting the source; a `_compile` rejection propagates unchanged. -/
def getModel (nz : String → String) (st : LoaderState) (filePath : String)
    (env : ChildEnv) : Except String String :=
  (compileModel nz st filePath env).map (fun r => r.source)

/-- Insertion of an element into a JavaScript `Set` modelled as a list. -/
def addToSet (acc : List String) (r : String) : List String :=
  if r ∈ acc then acc else acc ++ [r]

/-- `getModifiedResourceFiles()`: the union over the supplied changed
files of their one-hop reverse-dependency entries; empty when no
changed-file list has been supplied. -/
def getModifiedResourceFiles (st : LoaderState) : List String :=
  match st.changedFiles with
  | none => []
  | some cf =>
    cf.foldl (fun acc c => (getAffectedResources st c).foldl addToSet acc) []

/-! ## `AngularWebpackPlugin` (`part_005`) -/

/-- Diagnostic severity: the plugin reports through `addWarning` and
`addError`. -/
inductive Severity
  | warning
  | error
deriving DecidableEq, Repr

/-- `currentUnused` of the `finishModules` hook: the non-declaration
program files (a `Set`, here deduplicated), minus every dependency of a
bundled module that has a backing source file.  Each webpack module is
given as `none` (its resource has no backing source file) or `some deps`
(the file names `builder.getAllDependencies` returns for it). -/
def computeUnused (programFiles : List (String × Bool))
    (modules : List (Option (List String))) : List String :=
  modules.foldl
    (fun acc m =>
      match m with
      | some deps => acc.filter (fun f => !(decide (f ∈ deps)))
      | none => acc)
    (((programFiles.filter (fun p => !p.2)).map (fun p => p.1)).dedup)

/-- The suppression test of the unused-file pass: a file is reported only
when it is not in the previous cycle's unused set (`previousUnused &&
previousUnused.has(unused)` skips it). -/
def notInPrev (previousUnused : Option (List String)) (u : String) : Bool :=
  match previousUnused with
  | some prev => !(decide (u ∈ prev))
  | none => true

/-- One `finishModules` unused-file pass.  With compilation errors present
the analysis is skipped and the previous unused set kept; otherwise one
warning diagnostic (carrying the unused file name) is added per unused
file not contained in the previous cycle's unused set, and the current
unused set replaces the previous one. -/
def unusedCycle (previousUnused : Option (List String))
    (programFiles : List (String × Bool))
    (modules : List (Option (List String))) (hasErrors : Bool) :
    List (Severity × String) × Option (List String) :=
  if hasErrors then
    ([], previousUnused)
  else
    ((computeUnused programFiles modules).filter (notInPrev previousUnused)
      |>.map (fun u => (Severity.warning, u)),
      some (computeUnused programFiles modules))

/-- The result shape of the file emitter:
`{ content, map, dependencies }`. -/
structure EmitFileResult where
  content : Option String
  map : Option String
  dependencies : List String
deriving DecidableEq, Repr

/-- The builder program as `createFileEmitter` sees it: for every source
file the outputs `program.emit` writes for it (emitted name, data) and
its `getAllDependencies` list. -/
structure EmitProgram where
  files : List (String × List (String × String))
  allDeps : List (String × List String)

/-- The emitter returned by `createFileEmitter`: looks up the single
requested file; an absent file produces `undefined` with no emission;
otherwise `program.emit` runs for exactly that source file, `.map` outputs
become the sourcemap, `.js` outputs the content, and the dependency list
is the program dependencies plus the extra (resource) dependencies, all
externalized.  The second component records which source files were
passed to `program.emit` during the call. -/
def emitFile (program : EmitProgram) (extraDeps : List (String × List String))
    (externalize : String → String) (file : String) :
    Option EmitFileResult × List String :=
  match lookupA file program.files with
  | none => (none, [])
  | some outs =>
    (some
      ⟨(outs.foldl
          (fun (cm : Option String × Option String) o =>
            if endsWithStr o.1 ".map" then (cm.1, some o.2)
            else if endsWithStr o.1 ".js" then (some o.2, cm.2)
            else cm)
          (none, none)).1,
        (outs.foldl
          (fun (cm : Option String × Option String) o =>
            if endsWithStr o.1 ".map" then (cm.1, some o.2)
            else if endsWithStr o.1 ".js" then (some o.2, cm.2)
            else cm)
          (none, none)).2,
        (((lookupA file program.allDeps).getD []) ++
          ((lookupA file extraDeps).getD [])).map externalize⟩,
      [file])

/-- Which way the per-compilation cache setup went. -/
inductive CacheUse
  | reused
  | fresh
deriving DecidableEq, Repr

/-- The `AngularWebpackPlugin` fields that persist across compilations
(their element types abstracted). -/
structure PluginState (κ β π : Type) where
  sourceFileCache : Option κ
  builder : Option β
  ngtscNextProgram : Option π

/-- One `thisCompilation` pass of `AngularWebpackPlugin.apply`, restricted
to its incremental bookkeeping: the stored source-file cache is reused
when present; otherwise a fresh cache is created and stored only in watch
mode; the freshly built builder program and `NgtscProgram` are saved for
the next rebuild only in watch mode.  Returns the plugin state after the
pass, how the cache was obtained, and the cache this compilation uses. -/
def compilationStep {κ β π : Type} (watchMode : Bool) (st : PluginState κ β π)
    (freshCache : κ) (newBuilder : β) (newProgram : π) :
    PluginState κ β π × CacheUse × κ :=
  match st.sourceFileCache with
  | some c =>
    ({ sourceFileCache := st.sourceFileCache
       builder := if watchMode then some newBuilder else st.builder
       ngtscNextProgram := if watchMode then some newProgram else st.ngtscNextProgram },
      CacheUse.reused, c)
  | none =>
    ({ sourceFileCache := if watchMode then some freshCache else none
       builder := if watchMode then some newBuilder else st.builder
       ngtscNextProgram := if watchMode then some newProgram else st.ngtscNextProgram },
      CacheUse.fresh, freshCache)

end AngularCli

namespace AngularCli

/-! ## Lemmas about the association-list map operations -/

theorem lookupA_setA_self {α : Type} (k : String) (v : α) (l : List (String × α)) :
    lookupA k (setA k v l) = some v := by
  induction l with
  | nil => simp [setA, lookupA]
  | cons p rest ih =>
    by_cases h : p.1 = k
    · simp [setA, lookupA, h]
    · simp [setA, lookupA, h, ih]

theorem lookupA_setA_ne {α : Type} {k k' : String} (v : α) (l : List (String × α))
    (h : k ≠ k') : lookupA k' (setA k v l) = lookupA k' l := by
  induction l with
  | nil => simp [setA, lookupA, h]
  | cons p rest ih =>
    by_cases hp : p.1 = k
    · simp [setA, lookupA, hp, h]
    · simp [setA, lookupA, hp, ih]

theorem lookupA_append_some {α : Type} {k : String} {v : α} {l l' : List (String × α)}
    (h : lookupA k l = some v) : lookupA k (l ++ l') = some v := by
  induction l with
  | nil => simp [lookupA] at h
  | cons p rest ih =>
    by_cases hp : p.1 = k
    · simp [lookupA, hp] at h ⊢; exact h
    · simp [lookupA, hp] at h ⊢; exact ih h

theorem lookupA_append_none {α : Type} {k : String} {l l' : List (String × α)}
    (h : lookupA k l = none) : lookupA k (l ++ l') = lookupA k l' := by
  induction l with
  | nil => simp [lookupA]
  | cons p rest ih =>
    by_cases hp : p.1 = k
    · simp [lookupA, hp] at h
    · simp [lookupA, hp] at h ⊢; exact ih h

theorem lookupA_append_single_ne {α : Type} {k : String} {a : String × α}
    (l : List (String × α)) (h : a.1 ≠ k) :
    lookupA k (l ++ [a]) = lookupA k l := by
  cases hl : lookupA k l with
  | some v => exact lookupA_append_some hl
  | none => rw [lookupA_append_none hl]; simp [lookupA, h]

/-! ## Lemmas about `_compile`'s asset propagation -/

theorem propagateAssets_preserves {parent : List (String × String)}
    (childAssets : List (String × String)) (filePath : String)
    {k : String} {v : String} (h : lookupA k parent = some v) :
    lookupA k (propagateAssets parent childAssets filePath) = some v := by
  induction childAssets generalizing parent with
  | nil => exact h
  | cons a rest ih =>
    simp only [propagateAssets, List.foldl_cons] at *
    split
    · exact ih (lookupA_append_some h)
    · exact ih h

theorem propagateAssets_excluded {parent : List (String × String)}
    (childAssets : List (String × String)) (filePath : String)
    {k : String} (hk : k = filePath ∨ k = filePath ++ ".map") :
    lookupA k (propagateAssets parent childAssets filePath) = lookupA k parent := by
  induction childAssets generalizing parent with
  | nil => rfl
  | cons a rest ih =>
    simp only [propagateAssets, List.foldl_cons] at *
    split
    case isTrue hcond =>
      rw [ih, lookupA_append_single_ne]
      rcases hk with hk | hk
      · exact fun he => hcond.1 (he.trans hk)
      · exact fun he => hcond.2.1 (he.trans hk)
    case isFalse => exact ih

/-- Branch-shape elimination for a successful `_compile`: the resulting
state is `afterDeps` (possibly with a new `_cachedSources` binding under
the compilation hash), after a successful `additionalAssets` hook. -/
theorem compileModel_ok_shape {nz : String → String} {st : LoaderState}
    {filePath : String} {env : ChildEnv} {r : CompileResult}
    (h : compileModel nz st filePath env = .ok r) :
    ∃ childAssets ces called,
      additionalAssetsHook st.cachedEvaluatedSources filePath env =
        .ok (childAssets, ces, called) ∧
      r.outputName = filePath ∧ r.evaluatorCalled = called ∧
      (r.state = afterDeps nz st filePath env childAssets ces ∨
        ∃ src, lookupA filePath childAssets = some src ∧ r.source = src ∧
          r.state = { afterDeps nz st filePath env childAssets ces with
            cachedSources := setA env.fullHash src st.cachedSources }) := by
  unfold compileModel at h
  by_cases hj : isJsTs filePath
  · rw [if_pos hj] at h; cases h
  · rw [if_neg hj] at h
    cases hhook : additionalAssetsHook st.cachedEvaluatedSources filePath env with
    | error e => rw [hhook] at h; cases h
    | ok trip =>
      obtain ⟨ca, ces, called⟩ := trip
      rw [hhook] at h
      dsimp only at h
      refine ⟨ca, ces, called, rfl, ?_⟩
      cases hcs : lookupA env.fullHash st.cachedSources with
      | some s =>
        rw [hcs] at h
        dsimp only at h
        by_cases hs : s = ""
        · rw [if_pos hs] at h
          cases hca : lookupA filePath ca with
          | some src =>
            rw [hca] at h
            dsimp only at h
            cases h
            exact ⟨rfl, rfl, Or.inr ⟨src, rfl, rfl, rfl⟩⟩
          | none => rw [hca] at h; cases h
        · rw [if_neg hs] at h
          cases h
          exact ⟨rfl, rfl, Or.inl rfl⟩
      | none =>
        rw [hcs] at h
        dsimp only at h
        cases hca : lookupA filePath ca with
        | some src =>
          rw [hca] at h
          dsimp only at h
          cases h
          exact ⟨rfl, rfl, Or.inr ⟨src, rfl, rfl, rfl⟩⟩
        | none => rw [hca] at h; cases h

/-! ## Lemmas about the reverse-dependency update -/

theorem addReverseDep_preserves {nz : String → String} {filePath k : String}
    {m : List (String × List String)} (g : String)
    (h : filePath ∈ (lookupA k m).getD []) :
    filePath ∈ (lookupA k (addReverseDep nz filePath m g)).getD [] := by
  unfold addReverseDep
  cases hg : lookupA (nz g) m with
  | some entry =>
    by_cases hk : nz g = k
    · subst hk
      rw [lookupA_setA_self]
      rw [hg] at h
      simp only [Option.getD_some] at h ⊢
      by_cases hmem : filePath ∈ entry
      · rw [if_pos hmem]; exact h
      · exact absurd h hmem
    · rw [lookupA_setA_ne _ _ hk]; exact h
  | none =>
    by_cases hk : nz g = k
    · subst hk; rw [hg] at h; cases h
    · rw [lookupA_append_single_ne _ hk]; exact h

theorem addReverseDep_establishes (nz : String → String) (filePath : String)
    (m : List (String × List String)) (g : String) :
    filePath ∈ (lookupA (nz g) (addReverseDep nz filePath m g)).getD [] := by
  unfold addReverseDep
  cases hg : lookupA (nz g) m with
  | some entry =>
    rw [lookupA_setA_self]
    simp only [Option.getD_some]
    split
    case isTrue hmem => exact hmem
    case isFalse => exact List.mem_append_right _ (List.mem_singleton.mpr rfl)
  | none =>
    rw [lookupA_append_none hg]
    simp [lookupA]

theorem updateReverseDeps_preserves {nz : String → String} {filePath k : String}
    (deps : List String) {m : List (String × List String)}
    (h : filePath ∈ (lookupA k m).getD []) :
    filePath ∈ (lookupA k (updateReverseDeps nz filePath deps m)).getD [] := by
  induction deps generalizing m with
  | nil => exact h
  | cons g rest ih =>
    exact ih (addReverseDep_preserves g h)

theorem updateReverseDeps_establishes {nz : String → String} {filePath : String}
    (deps : List String) {m : List (String × List String)} {f : String}
    (hf : f ∈ deps) :
    filePath ∈ (lookupA (nz f) (updateReverseDeps nz filePath deps m)).getD [] := by
  induction deps generalizing m with
  | nil => cases hf
  | cons g rest ih =>
    rcases List.mem_cons.mp hf with hfg | hfr
    · subst hfg
      exact updateReverseDeps_preserves rest (addReverseDep_establishes nz filePath m f)
    · exact ih hfr

/-! ## Lemmas about `getModifiedResourceFiles`'s set union -/

theorem mem_addToSet {acc : List String} {r x : String} :
    x ∈ addToSet acc r ↔ x ∈ acc ∨ x = r := by
  unfold addToSet
  split
  case isTrue h =>
    constructor
    · exact Or.inl
    · rintro (hx | hx)
      · exact hx
      · exact hx ▸ h
  case isFalse h => simp

theorem mem_foldl_addToSet (l : List String) (acc : List String) (x : String) :
    x ∈ l.foldl addToSet acc ↔ x ∈ acc ∨ x ∈ l := by
  induction l generalizing acc with
  | nil => simp
  | cons r rest ih =>
    rw [List.foldl_cons, ih, mem_addToSet]
    simp only [List.mem_cons]
    tauto

/-! ## Reachability through the reverse resource-dependency map -/

theorem edgeRel_of_erase {rev : List (String × List String)} {f a b : String}
    (h : edgeRel (eraseKeyAll rev f) a b) : edgeRel rev a b := by
  obtain ⟨p, hp, h1, h2⟩ := h
  exact ⟨p, (List.mem_filter.mp hp).1, h1, h2⟩

theorem not_edgeRel_erase_self (rev : List (String × List String)) (f b : String) :
    ¬ edgeRel (eraseKeyAll rev f) f b := by
  rintro ⟨p, hp, h1, h2⟩
  have hc := (List.mem_filter.mp hp).2
  rw [h1] at hc
  simp at hc

theorem edgeRel_erase_of_ne {rev : List (String × List String)} {f a b : String}
    (hne : a ≠ f) (h : edgeRel rev a b) : edgeRel (eraseKeyAll rev f) a b := by
  obtain ⟨p, hp, h1, h2⟩ := h
  refine ⟨p, List.mem_filter.mpr ⟨hp, ?_⟩, h1, h2⟩
  simp [h1, hne]

theorem mem_revSuccs {rev : List (String × List String)} {f r : String} :
    r ∈ revSuccs rev f ↔ edgeRel rev f r := by
  unfold revSuccs edgeRel
  simp only [List.mem_flatten, List.mem_map, List.mem_filter, decide_eq_true_eq]
  constructor
  · rintro ⟨l, ⟨p, ⟨hp, hpf⟩, rfl⟩, hr⟩
    exact ⟨p, hp, hpf, hr⟩
  · rintro ⟨p, hp, h1, h2⟩
    exact ⟨p.2, ⟨p, ⟨hp, h1⟩, rfl⟩, h2⟩

theorem closureGo_acc_subset (rev : List (String × List String))
    (wl acc : List String) : acc ⊆ closureGo rev wl acc := by
  induction rev, wl, acc using closureGo.induct with
  | case1 rev acc => simp [closureGo]
  | case2 rev acc f rest hf ih => rw [closureGo, if_pos hf]; exact ih
  | case3 rev acc f rest hf ih =>
    rw [closureGo, if_neg hf]
    exact fun a ha => ih (List.mem_cons_of_mem f ha)

theorem closureGo_sound (rev : List (String × List String))
    (wl acc : List String) :
    ∀ x, x ∈ closureGo rev wl acc →
      x ∈ acc ∨ ∃ f ∈ wl, Relation.ReflTransGen (edgeRel rev) f x := by
  induction rev, wl, acc using closureGo.induct with
  | case1 rev acc =>
    intro x hx
    rw [closureGo] at hx
    exact Or.inl hx
  | case2 rev acc f rest hf ih =>
    intro x hx
    rw [closureGo, if_pos hf] at hx
    rcases ih x hx with h | ⟨g, hg, hp⟩
    · exact Or.inl h
    · exact Or.inr ⟨g, List.mem_cons_of_mem f hg, hp⟩
  | case3 rev acc f rest hf ih =>
    intro x hx
    rw [closureGo, if_neg hf] at hx
    rcases ih x hx with h | ⟨g, hg, hp⟩
    · rcases List.mem_cons.mp h with h | h
      · exact Or.inr ⟨f, List.mem_cons_self f rest, by subst h; exact .refl⟩
      · exact Or.inl h
    · have hp' : Relation.ReflTransGen (edgeRel rev) g x :=
        Relation.ReflTransGen.mono (fun a b hab => edgeRel_of_erase hab) hp
      rcases List.mem_append.mp hg with hg | hg
      · exact Or.inr ⟨g, List.mem_cons_of_mem f hg, hp'⟩
      · exact Or.inr ⟨f, List.mem_cons_self f rest,
          Relation.ReflTransGen.head (mem_revSuccs.mp hg) hp'⟩

theorem reflTransGen_erase_split {rev : List (String × List String)}
    (f : String) {g x : String}
    (h : Relation.ReflTransGen (edgeRel rev) g x) :
    Relation.ReflTransGen (edgeRel (eraseKeyAll rev f)) g x ∨
      ∃ r ∈ revSuccs rev f,
        Relation.ReflTransGen (edgeRel (eraseKeyAll rev f)) r x := by
  induction h with
  | refl => exact Or.inl .refl
  | @tail b c hab hbc ih =>
    rcases ih with hl | ⟨r, hr, hp⟩
    · by_cases hb : b = f
      · subst hb
        exact Or.inr ⟨c, mem_revSuccs.mpr hbc, .refl⟩
      · exact Or.inl (hl.tail (edgeRel_erase_of_ne hb hbc))
    · by_cases hb : b = f
      · subst hb
        exact Or.inr ⟨c, mem_revSuccs.mpr hbc, .refl⟩
      · exact Or.inr ⟨r, hr, hp.tail (edgeRel_erase_of_ne hb hbc)⟩

theorem closureGo_complete (rev : List (String × List String))
    (wl acc : List String) :
    (∀ a ∈ acc, ∀ b, ¬ edgeRel rev a b) →
    ∀ g x, g ∈ wl → Relation.ReflTransGen (edgeRel rev) g x →
      x ∈ closureGo rev wl acc := by
  induction rev, wl, acc using closureGo.induct with
  | case1 rev acc =>
    intro _ g x hg _
    exact absurd hg (List.not_mem_nil g)
  | case2 rev acc f rest hf ih =>
    intro hinv g x hg hpath
    rw [closureGo, if_pos hf]
    rcases List.mem_cons.mp hg with hgf | hgr
    · subst hgf
      rcases hpath.cases_head with hx | ⟨c, hedge, _⟩
      · exact closureGo_acc_subset rev rest acc (hx ▸ hf)
      · exact absurd hedge (hinv g hf c)
    · exact ih hinv g x hgr hpath
  | case3 rev acc f rest hf ih =>
    intro hinv g x hg hpath
    rw [closureGo, if_neg hf]
    have hinv' : ∀ a ∈ f :: acc, ∀ b, ¬ edgeRel (eraseKeyAll rev f) a b := by
      intro a ha b hedge
      rcases List.mem_cons.mp ha with haf | haa
      · exact not_edgeRel_erase_self rev f b (haf ▸ hedge)
      · exact hinv a haa b (edgeRel_of_erase hedge)
    rcases List.mem_cons.mp hg with hgf | hgr
    · subst hgf
      rcases reflTransGen_erase_split g hpath with hl | ⟨r, hr, hp⟩
      · rcases hl.cases_head with hx | ⟨c, hedge, _⟩
        · exact closureGo_acc_subset _ _ _ (hx ▸ List.mem_cons_self g acc)
        · exact absurd hedge (not_edgeRel_erase_self rev g c)
      · exact ih hinv' r x (List.mem_append_right rest hr) hp
    · rcases reflTransGen_erase_split f hpath with hl | ⟨r, hr, hp⟩
      · exact ih hinv' g x (List.mem_append_left _ hgr) hl
      · exact ih hinv' r x (List.mem_append_right rest hr) hp

theorem mem_closureGo_iff (rev : List (String × List String))
    (wl : List String) (x : String) :
    x ∈ closureGo rev wl [] ↔
      ∃ f ∈ wl, Relation.ReflTransGen (edgeRel rev) f x := by
  constructor
  · intro hx
    rcases closureGo_sound rev wl [] x hx with h | h
    · cases h
    · exact h
  · rintro ⟨f, hf, hp⟩
    exact closureGo_complete rev wl [] (by intro a ha; cases ha) f x hf hp

/-- C2: `SourceFileCache.invalidate` returns, as the changed-files set,
exactly the normalized files whose reported timestamp exceeds the last
build timestamp, and the surviving cache is exactly the entries not
reachable (reflexively-transitively, through the reverse
resource-dependency map) from any of those stale files; every unrelated
entry is left in place. -/
theorem sourceFileCache_invalidate_spec {α : Type} (cache : List (String × α))
    (fileTimestamps : List (String × Nat)) (buildTimestamp : Nat)
    (rev : List (String × List String)) (nz : String → String) :
    (∀ x, x ∈ (invalidate cache fileTimestamps buildTimestamp rev nz).2 ↔
      ∃ p ∈ fileTimestamps, buildTimestamp < p.2 ∧ x = nz p.1) ∧
    (∀ e, e ∈ (invalidate cache fileTimestamps buildTimestamp rev nz).1 ↔
      e ∈ cache ∧
        ¬ ∃ f ∈ (invalidate cache fileTimestamps buildTimestamp rev nz).2,
          Relation.ReflTransGen (edgeRel rev) f e.1) := by
  have h2 : (invalidate cache fileTimestamps buildTimestamp rev nz).2 =
      (fileTimestamps.filter (fun p => decide (buildTimestamp < p.2))).map
        (fun p => nz p.1) := rfl
  constructor
  · intro x
    rw [h2]
    simp only [List.mem_map, List.mem_filter, decide_eq_true_eq]
    constructor
    · rintro ⟨p, ⟨hp, hbt⟩, rfl⟩
      exact ⟨p, hp, hbt, rfl⟩
    · rintro ⟨p, hp, hbt, rfl⟩
      exact ⟨p, ⟨hp, hbt⟩, rfl⟩
  · intro e
    have h1 : (invalidate cache fileTimestamps buildTimestamp rev nz).1 =
        cache.filter (fun q => !(decide (q.1 ∈ closureGo rev
          ((fileTimestamps.filter (fun p => decide (buildTimestamp < p.2))).map
            (fun p => nz p.1)) []))) := rfl
    rw [h1, h2, List.mem_filter]
    simp only [Bool.not_eq_true', decide_eq_false_iff_not]
    rw [mem_closureGo_iff]

/-- A small cache for the C2 witness. -/
def c2Cache : List (String × Nat) := [("a", 1), ("r", 2), ("b", 3)]

/-- A two-hop reverse dependency map for the C2 witness. -/
def c2Rev : List (String × List String) := [("a", ["r"]), ("r", ["s"])]

/-- Witness for C2 at a concrete cache, timestamp report and reverse map. -/
theorem sourceFileCache_invalidate_spec_witness :
    ("a" ∈ (invalidate c2Cache [("a", 5)] 3 c2Rev id).2 ↔
      ∃ p ∈ [("a", 5)], 3 < p.2 ∧ "a" = id p.1) ∧
    (("r", 2) ∈ (invalidate c2Cache [("a", 5)] 3 c2Rev id).1 ↔
      (("r", 2) ∈ c2Cache ∧
        ¬ ∃ f ∈ (invalidate c2Cache [("a", 5)] 3 c2Rev id).2,
          Relation.ReflTransGen (edgeRel c2Rev) f "r")) := by
  have h := sourceFileCache_invalidate_spec c2Cache [("a", 5)] 3 c2Rev id
  exact ⟨h.1 "a", h.2 ("r", 2)⟩

/-! ## Claim theorems for the resource loader -/

/-- C5: a resource that fails to compile surfaces as a rejected promise of
`get` (the rejection reason of `_compile` propagates unchanged, with no
retry), and every path matching `/\.[jt]s$/` is rejected up front with a
message naming the file, before any child compilation is examined. -/
theorem scriptFile_resource_rejection (nz : String → String) (st : LoaderState)
    (filePath : String) (env : ChildEnv) :
    (∀ e, compileModel nz st filePath env = .error e ↔
      getModel nz st filePath env = .error e) ∧
    (isJsTs filePath = true →
      compileModel nz st filePath env = .error (scriptResourceError filePath) ∧
      getModel nz st filePath env = .error (scriptResourceError filePath) ∧
      (∀ env', compileModel nz st filePath env' = compileModel nz st filePath env) ∧
      ∃ pre post, scriptResourceError filePath = pre ++ filePath ++ post) := by
  have hprop : ∀ e, compileModel nz st filePath env = .error e ↔
      getModel nz st filePath env = .error e := by
    intro e
    unfold getModel
    cases compileModel nz st filePath env <;> simp [Except.map]
  refine ⟨hprop, fun h => ?_⟩
  have hc : ∀ env' : ChildEnv,
      compileModel nz st filePath env' = .error (scriptResourceError filePath) := by
    intro env'
    unfold compileModel
    rw [if_pos (by simp [h])]
  exact ⟨hc env, (hprop _).mp (hc env), fun env' => (hc env').trans (hc env).symm,
    ⟨"Cannot use a JavaScript or TypeScript file (",
      ") in a component\x27s styleUrls or templateUrl.", rfl⟩⟩

/-- Shared empty loader state for concrete witnesses. -/
def wSt0 : LoaderState := ⟨[], [], [], [], none, []⟩

/-- A concrete child-compilation environment used by witnesses. -/
def wEnv1 : ChildEnv :=
  ⟨[("r.css", "code")], ["d.scss"], "h1", fun s => .ok (s ++ "!")⟩

/-- A second environment with the same compilation hash but an evaluator
that must never run. -/
def wEnv2 : ChildEnv := ⟨[], [], "h1", fun _ => .error "must not evaluate"⟩

/-- Witness for C5: a TypeScript path is rejected with the message naming
the file, both from `_compile` and from `get`. -/
theorem scriptFile_resource_rejection_witness :
    compileModel id wSt0 "app.component.ts" wEnv2 =
      .error (scriptResourceError "app.component.ts") ∧
    getModel id wSt0 "app.component.ts" wEnv2 =
      .error (scriptResourceError "app.component.ts") := by
  have h := scriptFile_resource_rejection id wSt0 "app.component.ts" wEnv2
  exact ⟨(h.2 (by rfl)).1, (h.2 (by rfl)).2.1⟩

/-- C9: `_compile`'s asset propagation is frame-preserving on the parent
compilation: every asset already present keeps its content, and neither
the loaded resource's own output file nor its sourcemap is ever added. -/
theorem compile_parentAssets_frame (nz : String → String) (st : LoaderState)
    (filePath : String) (env : ChildEnv) (r : CompileResult)
    (h : compileModel nz st filePath env = .ok r) :
    (∀ name v, lookupA name st.parentAssets = some v →
      lookupA name r.state.parentAssets = some v) ∧
    lookupA filePath r.state.parentAssets = lookupA filePath st.parentAssets ∧
    lookupA (filePath ++ ".map") r.state.parentAssets =
      lookupA (filePath ++ ".map") st.parentAssets := by
  obtain ⟨ca, ces, called, hhook, hout, hcalled, hstate⟩ := compileModel_ok_shape h
  have hpa : r.state.parentAssets = propagateAssets st.parentAssets ca filePath := by
    rcases hstate with h1 | ⟨src, hca, hsrc, h1⟩ <;> rw [h1] <;> rfl
  rw [hpa]
  exact ⟨fun name v hv => propagateAssets_preserves ca filePath hv,
    propagateAssets_excluded ca filePath (Or.inl rfl),
    propagateAssets_excluded ca filePath (Or.inr rfl)⟩

/-- Concrete successful compile for the C9 witness: the parent already
holds `keep`, while the child emits the resource file, its map, a
conflicting `keep` and a genuinely new asset. -/
def c9St : LoaderState := { wSt0 with parentAssets := [("keep", "k")] }

/-- Child environment for the C9 witness. -/
def c9Env : ChildEnv :=
  ⟨[("r.css", "code"), ("r.css.map", "m"), ("keep", "clobber"), ("fresh", "f")],
    [], "h9", fun s => .ok s⟩

/-- The result of the C9 witness compile. -/
def c9Res : CompileResult :=
  match compileModel id c9St "r.css" c9Env with
  | .ok r => r
  | .error _ => default

/-- Witness for C9 at a concrete compile: the pre-existing asset keeps its
value and the resource file and sourcemap entries are unchanged (absent). -/
theorem compile_parentAssets_frame_witness :
    lookupA "keep" c9Res.state.parentAssets = some "k" ∧
    lookupA "r.css" c9Res.state.parentAssets = lookupA "r.css" c9St.parentAssets ∧
    lookupA "r.css.map" c9Res.state.parentAssets =
      lookupA "r.css.map" c9St.parentAssets := by
  have h := compile_parentAssets_frame id c9St "r.css" c9Env c9Res (by rfl)
  exact ⟨h.1 "keep" "k" (by rfl), h.2.1, h.2.2⟩

/-- C3: after a successful `_compile` of `filePath` the dependency maps are
in sync: the forward entry of `filePath` has exactly the members of the
child compilation's file-dependency set, and for every dependency `f` the
reverse entry of the normalized path contains `filePath`. -/
theorem compile_dependency_maps_sync (nz : String → String) (st : LoaderState)
    (filePath : String) (env : ChildEnv) (r : CompileResult)
    (h : compileModel nz st filePath env = .ok r) :
    (∀ f, f ∈ getResourceDependencies r.state filePath ↔ f ∈ env.fileDeps) ∧
    (∀ f, f ∈ env.fileDeps → filePath ∈ getAffectedResources r.state (nz f)) := by
  obtain ⟨ca, ces, called, hhook, hout, hcalled, hstate⟩ := compileModel_ok_shape h
  have hfd : r.state.fileDependencies =
      setA filePath env.fileDeps.dedup st.fileDependencies := by
    rcases hstate with h1 | ⟨src, hca, hsrc, h1⟩ <;> rw [h1] <;> rfl
  have hrd : r.state.reverseDependencies =
      updateReverseDeps nz filePath env.fileDeps st.reverseDependencies := by
    rcases hstate with h1 | ⟨src, hca, hsrc, h1⟩ <;> rw [h1] <;> rfl
  constructor
  · intro f
    unfold getResourceDependencies
    rw [hfd, lookupA_setA_self]
    simp [List.mem_dedup]
  · intro f hf
    unfold getAffectedResources
    rw [hrd]
    exact updateReverseDeps_establishes _ hf

/-- The result of the C3 witness compile. -/
def c3Res : CompileResult :=
  match compileModel id wSt0 "r.css" wEnv1 with
  | .ok r => r
  | .error _ => default

/-- Witness for C3 at a concrete compile: the forward entry matches the
child dependency set and the reverse entry points back at the resource. -/
theorem compile_dependency_maps_sync_witness :
    ("d.scss" ∈ getResourceDependencies c3Res.state "r.css" ↔
      "d.scss" ∈ wEnv1.fileDeps) ∧
    "r.css" ∈ getAffectedResources c3Res.state (id "d.scss") := by
  have h := compile_dependency_maps_sync id wSt0 "r.css" wEnv1 c3Res (by rfl)
  exact ⟨h.1 "d.scss", h.2 "d.scss" (by simp [wEnv1])⟩

/-- C4: `getModifiedResourceFiles` is exactly the union over the supplied
changed files of their `getAffectedResources` entries, and is empty when
no changed-file list has been supplied. -/
theorem getModifiedResourceFiles_spec (st : LoaderState) :
    (st.changedFiles = none → getModifiedResourceFiles st = []) ∧
    ∀ cf, st.changedFiles = some cf →
      ∀ x, x ∈ getModifiedResourceFiles st ↔
        ∃ c ∈ cf, x ∈ getAffectedResources st c := by
  constructor
  · intro h
    unfold getModifiedResourceFiles
    rw [h]
  · intro cf hcf x
    unfold getModifiedResourceFiles
    rw [hcf]
    have hfold : ∀ (cs : List String) (acc : List String),
        x ∈ cs.foldl (fun acc c => (getAffectedResources st c).foldl addToSet acc) acc ↔
          x ∈ acc ∨ ∃ c ∈ cs, x ∈ getAffectedResources st c := by
      intro cs
      induction cs with
      | nil => simp
      | cons c rest ih =>
        intro acc
        rw [List.foldl_cons, ih, mem_foldl_addToSet]
        simp only [List.mem_cons]
        constructor
        · rintro ((ha | hc) | ⟨c', hc', hx⟩)
          · exact Or.inl ha
          · exact Or.inr ⟨c, Or.inl rfl, hc⟩
          · exact Or.inr ⟨c', Or.inr hc', hx⟩
        · rintro (ha | ⟨c', hc' | hc', hx⟩)
          · exact Or.inl (Or.inl ha)
          · exact Or.inl (Or.inr (hc' ▸ hx))
          · exact Or.inr ⟨c', hc', hx⟩
    rw [hfold cf []]
    simp

/-- Loader state for the C4 witness: one reverse entry and two changed
files, only the first of which affects a resource. -/
def c4St : LoaderState :=
  { wSt0 with
    reverseDependencies := [("d.scss", ["r.css"])]
    changedFiles := some ["d.scss", "zz"] }

/-- Witness for C4 at a concrete state. -/
theorem getModifiedResourceFiles_spec_witness :
    "r.css" ∈ getModifiedResourceFiles c4St ↔
      ∃ c ∈ ["d.scss", "zz"], "r.css" ∈ getAffectedResources c4St c := by
  have h := getModifiedResourceFiles_spec c4St
  exact h.2 ["d.scss", "zz"] (by rfl) "r.css"

/-- C1: compiled resources are cached keyed by the child compilation's
`fullHash`.  A first compile of `filePath` (hash not yet cached) evaluates
the asset once and caches both the string artifact and the evaluated
source; any later compile whose compilation hash is unchanged — whatever
its file set or timestamps, which do not enter `_compile` at all — returns
the same cached artifact, installs the cached evaluated source as the
compilation asset, and never calls the evaluator again. -/
theorem resource_hash_cache_reuse (nz : String → String) (st0 : LoaderState)
    (filePath : String) (env1 env2 : ChildEnv) (src output : String)
    (hjs : isJsTs filePath = false)
    (hces : lookupA env1.fullHash st0.cachedEvaluatedSources = none)
    (hcs : lookupA env1.fullHash st0.cachedSources = none)
    (hasset : lookupA filePath env1.rawAssets = some src)
    (heval : env1.evaluator src = .ok output)
    (hhash : env2.fullHash = env1.fullHash) :
    ∃ r1, compileModel nz st0 filePath env1 = .ok r1 ∧
      r1.source = output ∧ r1.evaluatorCalled = true ∧
      additionalAssetsHook r1.state.cachedEvaluatedSources filePath env2 =
        .ok (setA filePath output env2.rawAssets,
          r1.state.cachedEvaluatedSources, false) ∧
      ∃ r2, compileModel nz r1.state filePath env2 = .ok r2 ∧
        r2.source = output ∧ r2.evaluatorCalled = false := by
  have hook1 : additionalAssetsHook st0.cachedEvaluatedSources filePath env1 =
      .ok (setA filePath output env1.rawAssets,
        setA env1.fullHash output st0.cachedEvaluatedSources, true) := by
    unfold additionalAssetsHook
    rw [hces]
    dsimp only
    rw [hasset]
    dsimp only
    rw [heval]
  have hc1 : compileModel nz st0 filePath env1 =
      .ok ⟨filePath, output,
        { afterDeps nz st0 filePath env1 (setA filePath output env1.rawAssets)
            (setA env1.fullHash output st0.cachedEvaluatedSources) with
          cachedSources := setA env1.fullHash output st0.cachedSources }, true⟩ := by
    unfold compileModel
    rw [if_neg (by simp [hjs]), hook1]
    dsimp only
    rw [hcs]
    dsimp only
    rw [lookupA_setA_self]
  refine ⟨_, hc1, rfl, rfl, ?_, ?_⟩
  · unfold additionalAssetsHook
    rw [show (({ afterDeps nz st0 filePath env1 (setA filePath output env1.rawAssets)
        (setA env1.fullHash output st0.cachedEvaluatedSources) with
      cachedSources := setA env1.fullHash output st0.cachedSources } :
        LoaderState)).cachedEvaluatedSources =
      setA env1.fullHash output st0.cachedEvaluatedSources from rfl]
    rw [hhash, lookupA_setA_self]
  · set S1 : LoaderState :=
      { afterDeps nz st0 filePath env1 (setA filePath output env1.rawAssets)
          (setA env1.fullHash output st0.cachedEvaluatedSources) with
        cachedSources := setA env1.fullHash output st0.cachedSources } with hS1
    have hces1 : lookupA env2.fullHash S1.cachedEvaluatedSources = some output := by
      rw [hS1]
      show lookupA env2.fullHash (setA env1.fullHash output st0.cachedEvaluatedSources) =
        some output
      rw [hhash, lookupA_setA_self]
    have hook2 : additionalAssetsHook S1.cachedEvaluatedSources filePath env2 =
        .ok (setA filePath output env2.rawAssets, S1.cachedEvaluatedSources, false) := by
      unfold additionalAssetsHook
      rw [hces1]
    have hcs1 : lookupA env2.fullHash S1.cachedSources = some output := by
      rw [hS1]
      show lookupA env2.fullHash (setA env1.fullHash output st0.cachedSources) =
        some output
      rw [hhash, lookupA_setA_self]
    have hc2 : ∃ st2, compileModel nz S1 filePath env2 =
        .ok ⟨filePath, output, st2, false⟩ := by
      by_cases hout : output = ""
      · refine ⟨{ afterDeps nz S1 filePath env2 (setA filePath output env2.rawAssets)
            S1.cachedEvaluatedSources with
            cachedSources := setA env2.fullHash output S1.cachedSources }, ?_⟩
        unfold compileModel
        rw [if_neg (by simp [hjs]), hook2]
        dsimp only
        rw [hcs1]
        dsimp only
        rw [if_pos hout, lookupA_setA_self]
      · refine ⟨afterDeps nz S1 filePath env2 (setA filePath output env2.rawAssets)
            S1.cachedEvaluatedSources, ?_⟩
        unfold compileModel
        rw [if_neg (by simp [hjs]), hook2]
        dsimp only
        rw [hcs1]
        dsimp only
        rw [if_neg hout]
    obtain ⟨st2, hc2⟩ := hc2
    exact ⟨_, hc2, rfl, rfl⟩

/-- Witness for C1 at a concrete resource: the first compile evaluates,
the second (same hash, different file set, evaluator poisoned) reuses the
caches. -/
theorem resource_hash_cache_reuse_witness :
    ∃ r1, compileModel id wSt0 "r.css" wEnv1 = .ok r1 ∧
      r1.source = "code!" ∧ r1.evaluatorCalled = true ∧
      additionalAssetsHook r1.state.cachedEvaluatedSources "r.css" wEnv2 =
        .ok (setA "r.css" "code!" wEnv2.rawAssets,
          r1.state.cachedEvaluatedSources, false) ∧
      ∃ r2, compileModel id r1.state "r.css" wEnv2 = .ok r2 ∧
        r2.source = "code!" ∧ r2.evaluatorCalled = false :=
  resource_hash_cache_reuse id wSt0 "r.css" wEnv1 wEnv2 "code" "code!"
    (by rfl) (by rfl) (by rfl) (by rfl) (by rfl) (by rfl)

/-! ## Claim theorems for the plugin -/

theorem computeUnused_nodup (programFiles : List (String × Bool))
    (modules : List (Option (List String))) :
    (computeUnused programFiles modules).Nodup := by
  unfold computeUnused
  have h : ∀ (ms : List (Option (List String))) (acc : List String), acc.Nodup →
      (ms.foldl
        (fun acc m =>
          match m with
          | some deps => acc.filter (fun f => !(decide (f ∈ deps)))
          | none => acc) acc).Nodup := by
    intro ms
    induction ms with
    | nil => exact fun acc h => h
    | cons m rest ih =>
      intro acc h
      cases m with
      | none => exact ih acc h
      | some deps => exact ih _ (List.Nodup.filter _ h)
  exact h modules _ (List.nodup_dedup _)

/-- C6: an unused-file pass emits only warnings (never errors), exactly
one warning per distinct unused file, none at all for a file contained in
the previous cycle's unused set, and records the current unused set for
the next cycle; a cycle with compilation errors skips the analysis. -/
theorem unusedWarnings_spec (previousUnused : Option (List String))
    (programFiles : List (String × Bool))
    (modules : List (Option (List String))) :
    ((unusedCycle previousUnused programFiles modules true).1 = [] ∧
      (unusedCycle previousUnused programFiles modules true).2 = previousUnused) ∧
    ((unusedCycle previousUnused programFiles modules false).2 =
      some (computeUnused programFiles modules)) ∧
    (∀ d, d ∈ (unusedCycle previousUnused programFiles modules false).1 →
      d.1 = Severity.warning) ∧
    (∀ u, u ∉ computeUnused programFiles modules →
      ((unusedCycle previousUnused programFiles modules false).1.map
        (fun d => d.2)).count u = 0) ∧
    (∀ u, u ∈ computeUnused programFiles modules →
      (∀ prev, previousUnused = some prev → u ∈ prev →
        ((unusedCycle previousUnused programFiles modules false).1.map
          (fun d => d.2)).count u = 0) ∧
      ((previousUnused = none ∨
          ∃ prev, previousUnused = some prev ∧ u ∉ prev) →
        ((unusedCycle previousUnused programFiles modules false).1.map
          (fun d => d.2)).count u = 1)) := by
  have hw : (unusedCycle previousUnused programFiles modules false).1 =
      ((computeUnused programFiles modules).filter
        (notInPrev previousUnused)).map (fun u => (Severity.warning, u)) := rfl
  have hcount : ∀ u,
      ((unusedCycle previousUnused programFiles modules false).1.map
        (fun d => d.2)).count u =
      ((computeUnused programFiles modules).filter
        (notInPrev previousUnused)).count u := by
    intro u
    rw [hw, List.map_map]
    congr 1
    exact List.map_id _
  refine ⟨⟨rfl, rfl⟩, rfl, ?_, ?_, ?_⟩
  · intro d hd
    rw [hw] at hd
    obtain ⟨u, hu, rfl⟩ := List.mem_map.mp hd
    rfl
  · intro u hu
    rw [hcount u, List.count_eq_zero]
    intro hmem
    exact hu (List.mem_filter.mp hmem).1
  · intro u hu
    constructor
    · rintro prev rfl hup
      rw [hcount u, List.count_eq_zero]
      intro hmem
      have hpu := (List.mem_filter.mp hmem).2
      simp [notInPrev, hup] at hpu
    · intro hcase
      rw [hcount u]
      have hp : notInPrev previousUnused u = true := by
        rcases hcase with h | ⟨prev, rfl, hnp⟩
        · simp [notInPrev, h]
        · simp [notInPrev, hnp]
      rw [List.count_filter hp]
      exact List.count_eq_one_of_mem (computeUnused_nodup _ _) hu

/-- Program files for the C6 witness: two unused files (one already
reported last cycle), one declaration file, one file reachable from a
bundled module. -/
def c6Files : List (String × Bool) :=
  [("old.ts", false), ("u.ts", false), ("d.d.ts", true), ("used.ts", false)]

/-- Modules for the C6 witness. -/
def c6Modules : List (Option (List String)) := [some ["used.ts"], none]

/-- Witness for C6 at a concrete cycle: the fresh unused file is warned
exactly once, the one already unused last cycle not at all. -/
theorem unusedWarnings_spec_witness :
    ((unusedCycle (some ["old.ts"]) c6Files c6Modules false).1.map
      (fun d => d.2)).count "u.ts" = 1 ∧
    ((unusedCycle (some ["old.ts"]) c6Files c6Modules false).1.map
      (fun d => d.2)).count "old.ts" = 0 := by
  have h := unusedWarnings_spec (some ["old.ts"]) c6Files c6Modules
  exact ⟨(h.2.2.2.2 "u.ts" (by decide)).2 (Or.inr ⟨["old.ts"], rfl, by decide⟩),
    (h.2.2.2.2 "old.ts" (by decide)).1 ["old.ts"] rfl (by decide)⟩

/-- C7: the file emitter is pull-based — `program.emit` runs for exactly
the requested source file and no other, and a path with no source file in
the program yields `undefined` with no emission at all. -/
theorem createFileEmitter_pull (program : EmitProgram)
    (extraDeps : List (String × List String)) (externalize : String → String)
    (file : String) :
    (lookupA file program.files = none →
      emitFile program extraDeps externalize file = (none, [])) ∧
    (∀ outs, lookupA file program.files = some outs →
      (emitFile program extraDeps externalize file).2 = [file] ∧
      ∃ res, (emitFile program extraDeps externalize file).1 = some res ∧
        res.dependencies =
          (((lookupA file program.allDeps).getD []) ++
            ((lookupA file extraDeps).getD [])).map externalize) ∧
    (∀ g, g ∈ (emitFile program extraDeps externalize file).2 → g = file) := by
  unfold emitFile
  cases h : lookupA file program.files with
  | none =>
    refine ⟨fun _ => rfl, ?_, ?_⟩
    · intro outs ho
      cases ho
    · intro g hg
      cases hg
  | some outs =>
    refine ⟨?_, ?_, ?_⟩
    · intro hn
      cases hn
    · intro outs' ho
      cases ho
      exact ⟨rfl, _, rfl, rfl⟩
    · intro g hg
      simpa using hg

/-- Program for the C7 witness. -/
def c7Program : EmitProgram :=
  ⟨[("a.ts", [("a.js", "JSDATA"), ("a.js.map", "MAPDATA")])], [("a.ts", ["dep1"])]⟩

/-- Extra (resource) dependencies for the C7 witness. -/
def c7Extra : List (String × List String) := [("a.ts", ["dep2"])]

/-- Witness for C7 at a concrete program: a path not in the program emits
nothing and returns `undefined`; the present path is emitted exactly once
with the combined dependency list. -/
theorem createFileEmitter_pull_witness :
    emitFile c7Program c7Extra id "b.ts" = (none, []) ∧
    (emitFile c7Program c7Extra id "a.ts").2 = ["a.ts"] ∧
    ∃ res, (emitFile c7Program c7Extra id "a.ts").1 = some res ∧
      res.dependencies =
        (((lookupA "a.ts" c7Program.allDeps).getD []) ++
          ((lookupA "a.ts" c7Extra).getD [])).map id := by
  have h1 := createFileEmitter_pull c7Program c7Extra id "b.ts"
  have h2 := createFileEmitter_pull c7Program c7Extra id "a.ts"
  exact ⟨h1.1 (by rfl), h2.2.1 _ (by rfl)⟩

/-- C8: the plugin keeps incremental state across compilations only in
watch mode — the builder program and `NgtscProgram` are stored exactly
when `watchMode` is true, a stored cache is reused when present, a fresh
cache is stored only in watch mode, and outside watch mode a compilation
starting with no stored state uses a fresh cache and leaves every
incremental field unset. -/
theorem watchMode_state_retention {κ β π : Type} (st : PluginState κ β π)
    (freshCache : κ) (newBuilder : β) (newProgram : π) :
    ((compilationStep true st freshCache newBuilder newProgram).1.builder =
      some newBuilder) ∧
    ((compilationStep true st freshCache newBuilder newProgram).1.ngtscNextProgram =
      some newProgram) ∧
    (st.sourceFileCache = none →
      (compilationStep true st freshCache newBuilder newProgram).1.sourceFileCache =
        some freshCache ∧
      (compilationStep true st freshCache newBuilder newProgram).2.1 =
        CacheUse.fresh) ∧
    (∀ c, st.sourceFileCache = some c →
      (compilationStep true st freshCache newBuilder newProgram).2.1 =
        CacheUse.reused ∧
      (compilationStep true st freshCache newBuilder newProgram).2.2 = c ∧
      (compilationStep true st freshCache newBuilder newProgram).1.sourceFileCache =
        some c) ∧
    ((compilationStep false st freshCache newBuilder newProgram).1.builder =
      st.builder) ∧
    ((compilationStep false st freshCache newBuilder newProgram).1.ngtscNextProgram =
      st.ngtscNextProgram) ∧
    (st.sourceFileCache = none →
      (compilationStep false st freshCache newBuilder newProgram).2.1 =
        CacheUse.fresh ∧
      (compilationStep false st freshCache newBuilder newProgram).1.sourceFileCache =
        none) := by
  cases h : st.sourceFileCache <;> simp [compilationStep, h]

/-- Empty plugin state for the C8 witness. -/
def c8St : PluginState Nat Nat Nat := ⟨none, none, none⟩

/-- Witness for C8 at a concrete initial state. -/
theorem watchMode_state_retention_witness :
    ((compilationStep true c8St 1 2 3).1.builder = some 2 ∧
      (compilationStep true c8St 1 2 3).1.ngtscNextProgram = some 3 ∧
      (compilationStep true c8St 1 2 3).1.sourceFileCache = some 1 ∧
      (compilationStep true c8St 1 2 3).2.1 = CacheUse.fresh) ∧
    ((compilationStep false c8St 1 2 3).1.builder = none ∧
      (compilationStep false c8St 1 2 3).1.ngtscNextProgram = none ∧
      (compilationStep false c8St 1 2 3).2.1 = CacheUse.fresh ∧
      (compilationStep false c8St 1 2 3).1.sourceFileCache = none) := by
  obtain ⟨h1, h2, h3, h4, h5, h6, h7⟩ := watchMode_state_retention c8St 1 2 3
  obtain ⟨h3a, h3b⟩ := h3 rfl
  obtain ⟨h7a, h7b⟩ := h7 rfl
  exact ⟨⟨h1, h2, h3a, h3b⟩, ⟨h5, h6, h7a, h7b⟩⟩

/-- C10 counterexample: at the `Object.prototype` key `"constructor"` —
an option string other than the four known ones — the source returns the
inherited truthy value, not the all-empty `none` format, so the claimed
universal fallback fails. -/
theorem getOutputHashFormat_prototype_counterexample :
    "constructor" ≠ "none" ∧ "constructor" ≠ "media" ∧
    "constructor" ≠ "bundles" ∧ "constructor" ≠ "all" ∧
    getOutputHashFormat "constructor" 20 =
      JsLookupResult.inherited "constructor" ∧
    getOutputHashFormat "constructor" 20 ≠
      JsLookupResult.format { chunk := "", extract := "", file := "", script := "" } := by
  refine ⟨by decide, by decide, by decide, by decide, ?_, ?_⟩
  · simp [getOutputHashFormat, objectPrototypeKeys]
  · simp [getOutputHashFormat, objectPrototypeKeys]

/-- C10 (amended): for every option other than the four known ones that is
not a property key inherited from `Object.prototype`, `getOutputHashFormat`
returns the all-empty `none` format; an inherited key returns the
inherited non-format value; each known option yields the fixed
length-parameterized format (length defaulting to 20). -/
theorem getOutputHashFormat_spec (option : String) (length : Nat)
    (h : option ≠ "none" ∧ option ≠ "media" ∧ option ≠ "bundles" ∧ option ≠ "all") :
    (option ∉ objectPrototypeKeys →
      getOutputHashFormat option length =
        .format { chunk := "", extract := "", file := "", script := "" }) ∧
    (option ∈ objectPrototypeKeys →
      getOutputHashFormat option length = .inherited option) ∧
    getOutputHashFormat "none" length =
      .format { chunk := "", extract := "", file := "", script := "" } ∧
    getOutputHashFormat "media" length =
      .format
        { chunk := ""
          extract := ""
          file := ".[hash:" ++ toString length ++ "]"
          script := "" } ∧
    getOutputHashFormat "bundles" length =
      .format
        { chunk := ".[chunkhash:" ++ toString length ++ "]"
          extract := ".[contenthash:" ++ toString length ++ "]"
          file := ""
          script := ".[hash:" ++ toString length ++ "]" } ∧
    getOutputHashFormat "all" length =
      .format
        { chunk := ".[chunkhash:" ++ toString length ++ "]"
          extract := ".[contenthash:" ++ toString length ++ "]"
          file := ".[hash:" ++ toString length ++ "]"
          script := ".[hash:" ++ toString length ++ "]" } ∧
    getOutputHashFormat option = getOutputHashFormat option 20 := by
  obtain ⟨h1, h2, h3, h4⟩ := h
  refine ⟨?_, ?_, by simp [getOutputHashFormat], by simp [getOutputHashFormat],
    by simp [getOutputHashFormat], by simp [getOutputHashFormat], rfl⟩
  · intro hp
    simp [getOutputHashFormat, h1, h2, h3, h4, hp]
  · intro hp
    simp [getOutputHashFormat, h1, h2, h3, h4, hp]

/-- Witness for C10 at the concrete unknown, non-inherited option
`"numbers"` and length 8. -/
theorem getOutputHashFormat_spec_witness :
    ("numbers" ∉ objectPrototypeKeys →
      getOutputHashFormat "numbers" 8 =
        .format { chunk := "", extract := "", file := "", script := "" }) ∧
    ("numbers" ∈ objectPrototypeKeys →
      getOutputHashFormat "numbers" 8 = .inherited "numbers") ∧
    getOutputHashFormat "none" 8 =
      .format { chunk := "", extract := "", file := "", script := "" } ∧
    getOutputHashFormat "media" 8 =
      .format
        { chunk := ""
          extract := ""
          file := ".[hash:" ++ toString 8 ++ "]"
          script := "" } ∧
    getOutputHashFormat "bundles" 8 =
      .format
        { chunk := ".[chunkhash:" ++ toString 8 ++ "]"
          extract := ".[contenthash:" ++ toString 8 ++ "]"
          file := ""
          script := ".[hash:" ++ toString 8 ++ "]" } ∧
    getOutputHashFormat "all" 8 =
      .format
        { chunk := ".[chunkhash:" ++ toString 8 ++ "]"
          extract := ".[contenthash:" ++ toString 8 ++ "]"
          file := ".[hash:" ++ toString 8 ++ "]"
          script := ".[hash:" ++ toString 8 ++ "]" } ∧
    getOutputHashFormat "numbers" = getOutputHashFormat "numbers" 20 :=
  getOutputHashFormat_spec "numbers" 8 (by refine ⟨?_, ?_, ?_, ?_⟩ <;> decide)

end AngularCli
